import Mathlib

/-!
Verification of the react-fields library: a shallow embedding of the
Schema Walker (src/lib/fields.jsx, class Fields) and the Form Controller
(the Form component), together with the lodash helpers they call.

JavaScript values are modelled by the inductive type JVal; closures that
the code passes around (components, bound callbacks) are modelled as
opaque tagged function values. Objects are association lists of string
keys; JS object-literal and spread semantics are modelled so that a later
binding overwrites an earlier one.
-/

/-- A JavaScript value: undefined, null, booleans, numbers (integers
suffice for this library), strings, objects, arrays, and opaque function
values carrying a tag naming the closure they stand for. -/
inductive JVal where
  | undef
  | null
  | bool (b : Bool)
  | num (n : Int)
  | str (s : String)
  | obj (fields : List (String × JVal))
  | arr (elems : List JVal)
  | fn (tag : String)
deriving Repr, Inhabited

mutual

/-- Decidable equality for JVal, written by hand because the nested
lists prevent deriving. -/
def JVal.decEqVal : (a b : JVal) → Decidable (a = b)
  | .undef, .undef => isTrue rfl
  | .null, .null => isTrue rfl
  | .bool a, .bool b =>
    match decEq a b with
    | isTrue h => isTrue (by rw [h])
    | isFalse h => isFalse (by intro hc; injection hc; contradiction)
  | .num a, .num b =>
    match decEq a b with
    | isTrue h => isTrue (by rw [h])
    | isFalse h => isFalse (by intro hc; injection hc; contradiction)
  | .str a, .str b =>
    match decEq a b with
    | isTrue h => isTrue (by rw [h])
    | isFalse h => isFalse (by intro hc; injection hc; contradiction)
  | .obj a, .obj b =>
    match JVal.decEqFields a b with
    | isTrue h => isTrue (by rw [h])
    | isFalse h => isFalse (by intro hc; injection hc; contradiction)
  | .arr a, .arr b =>
    match JVal.decEqElems a b with
    | isTrue h => isTrue (by rw [h])
    | isFalse h => isFalse (by intro hc; injection hc; contradiction)
  | .fn a, .fn b =>
    match decEq a b with
    | isTrue h => isTrue (by rw [h])
    | isFalse h => isFalse (by intro hc; injection hc; contradiction)
  | .undef, .null | .undef, .bool _ | .undef, .num _ | .undef, .str _
  | .undef, .obj _ | .undef, .arr _ | .undef, .fn _
  | .null, .undef | .null, .bool _ | .null, .num _ | .null, .str _
  | .null, .obj _ | .null, .arr _ | .null, .fn _
  | .bool _, .undef | .bool _, .null | .bool _, .num _ | .bool _, .str _
  | .bool _, .obj _ | .bool _, .arr _ | .bool _, .fn _
  | .num _, .undef | .num _, .null | .num _, .bool _ | .num _, .str _
  | .num _, .obj _ | .num _, .arr _ | .num _, .fn _
  | .str _, .undef | .str _, .null | .str _, .bool _ | .str _, .num _
  | .str _, .obj _ | .str _, .arr _ | .str _, .fn _
  | .obj _, .undef | .obj _, .null | .obj _, .bool _ | .obj _, .num _
  | .obj _, .str _ | .obj _, .arr _ | .obj _, .fn _
  | .arr _, .undef | .arr _, .null | .arr _, .bool _ | .arr _, .num _
  | .arr _, .str _ | .arr _, .obj _ | .arr _, .fn _
  | .fn _, .undef | .fn _, .null | .fn _, .bool _ | .fn _, .num _
  | .fn _, .str _ | .fn _, .obj _ | .fn _, .arr _ =>
    isFalse (by intro hc; exact JVal.noConfusion hc)

def JVal.decEqFields : (a b : List (String × JVal)) → Decidable (a = b)
  | [], [] => isTrue rfl
  | _ :: _, [] => isFalse (by intro hc; exact List.noConfusion hc)
  | [], _ :: _ => isFalse (by intro hc; exact List.noConfusion hc)
  | (k, v) :: r, (k2, v2) :: r2 =>
    match decEq k k2, JVal.decEqVal v v2, JVal.decEqFields r r2 with
    | isTrue h1, isTrue h2, isTrue h3 => isTrue (by rw [h1, h2, h3])
    | isFalse h1, _, _ =>
      isFalse (by intro hc; injection hc with hp _; injection hp; contradiction)
    | _, isFalse h2, _ =>
      isFalse (by intro hc; injection hc with hp _; injection hp; contradiction)
    | _, _, isFalse h3 =>
      isFalse (by intro hc; injection hc; contradiction)

def JVal.decEqElems : (a b : List JVal) → Decidable (a = b)
  | [], [] => isTrue rfl
  | _ :: _, [] => isFalse (by intro hc; exact List.noConfusion hc)
  | [], _ :: _ => isFalse (by intro hc; exact List.noConfusion hc)
  | v :: r, v2 :: r2 =>
    match JVal.decEqVal v v2, JVal.decEqElems r r2 with
    | isTrue h1, isTrue h2 => isTrue (by rw [h1, h2])
    | isFalse h1, _ => isFalse (by intro hc; injection hc; contradiction)
    | _, isFalse h2 => isFalse (by intro hc; injection hc; contradiction)

end

instance : DecidableEq JVal := JVal.decEqVal

namespace JVal

/-- JS truthiness: undefined, null, false, 0 and the empty string are
falsy; objects, arrays and functions are truthy. -/
def truthy : JVal → Bool
  | .undef => false
  | .null => false
  | .bool b => b
  | .num n => n != 0
  | .str s => !s.isEmpty
  | .obj _ => true
  | .arr _ => true
  | .fn _ => true

/-- Whether a value is an object (the shape a Field Definition or nested
schema must have). -/
def isObj : JVal → Bool
  | .obj _ => true
  | _ => false

/-- JS property-key coercion, used when a value is used as an index into
an object (for example `fieldTypes[fieldSchema.type]`). -/
def toPropKey : JVal → String
  | .undef => "undefined"
  | .null => "null"
  | .bool b => if b then "true" else "false"
  | .num n => toString n
  | .str s => s
  | .obj _ => "[object Object]"
  | .arr _ => ""
  | .fn tag => tag

/-- Property access `v[k]`: the first binding of the key in an object
(JS objects hold each key once), an index for arrays, undefined
otherwise. -/
def getKey : JVal → String → JVal
  | .obj fs, k => (List.lookup k fs).getD .undef
  | .arr xs, k =>
    match k.toNat? with
    | some i => xs.getD i .undef
    | none => .undef
  | _, _ => .undef

end JVal

/-- The short-circuiting JS `a && b`: yields `a` when `a` is falsy,
otherwise `b`. -/
def jsAnd (a b : JVal) : JVal :=
  if a.truthy then b else a

/-- Lodash `_.get(v, path)` for an already-normalized key-sequence path:
walks the keys, yielding undefined as soon as a step is absent; the empty
path yields undefined (as lodash baseGet does). -/
def lodashGet (v : JVal) (path : List String) : JVal :=
  match path with
  | [] => .undef
  | _ => path.foldl JVal.getKey v

/-- Lodash `_.isEmpty`: true for nil values and non-collection
primitives, emptiness for strings, arrays and objects. -/
def lodashIsEmpty : JVal → Bool
  | .undef => true
  | .null => true
  | .bool _ => true
  | .num _ => true
  | .str s => s.isEmpty
  | .obj fs => fs.isEmpty
  | .arr xs => xs.isEmpty
  | .fn _ => true

/-- Set or replace a binding in an association list, keeping the position
of an existing key (JS object assignment semantics). -/
def assocSet {α β : Type} [BEq α] : List (α × β) → α → β → List (α × β)
  | [], k, v => [(k, v)]
  | (k', v') :: rest, k, v =>
    if k' == k then (k, v) :: rest else (k', v') :: assocSet rest k v

/-- JS object-literal spread semantics: the bindings of `extra` are
written over `base` left to right, so a later binding for a key wins. -/
def mergeRight (base extra : List (String × JVal)) : List (String × JVal) :=
  extra.foldl (fun acc kv => assocSet acc kv.1 kv.2) base

/-- The fields contributed by `{...v}`: an object spreads its bindings,
an array its indexed elements, anything else contributes nothing. -/
def spreadFields : JVal → List (String × JVal)
  | .obj fs => fs
  | .arr xs => (xs.enum.map fun p => (toString p.1, p.2))
  | _ => []

/-- Lodash `_.keys` of an object (insertion order). -/
def objKeys : JVal → List String
  | .obj fs => fs.map (·.1)
  | _ => []

/-- Lodash `_.map` over a collection: an array maps its elements, an
object its values. -/
def collElems : JVal → List JVal
  | .arr xs => xs
  | .obj fs => fs.map (·.2)
  | _ => []

/-- Lodash `_.sortBy(names)` with the identity iteratee over strings:
ascending lexicographic sort. -/
def lodashSortBy (xs : List String) : List String :=
  List.insertionSort (· ≤ ·) xs

/-- Option fallback used to state lookup precedence: the first operand if
present, else the second. -/
def firstSome {α : Type} : Option α → Option α → Option α
  | some v, _ => some v
  | none, b => b

/-! ### The Fields component (src/lib/fields.jsx) -/

/-- A field path as supplied by a caller of the Fields operations: a
dotted string, an array of keys, or absent (undefined). -/
inductive FieldPath where
  | str (s : String)
  | arr (ks : List String)
  | undef
deriving DecidableEq, Repr

/-- The props of the Fields component that its modelled operations read.
Closures (onChange, render, components inside fieldTypes) are JVal
function values. -/
structure FieldsProps where
  schema : JVal
  value : JVal
  error : JVal
  fieldTypes : JVal
  fieldComponentProps : JVal
  fields : JVal
  onChange : JVal
deriving DecidableEq, Repr

/-- The record produced by Fields.getFieldData (the bound onChange
closure it also carries is determined by fieldPath and fieldPathString,
which are stored here). -/
structure FieldData where
  fieldPath : Option (List String)
  fieldPathString : Option String
  fieldSchema : JVal
  fieldError : JVal
  fieldType : JVal
  value : JVal
deriving DecidableEq, Repr

/-- Helper for splitDot: walks the characters, cutting at every dot (the
accumulator holds the current segment reversed). -/
def splitDotAux : List Char → List Char → List String
  | [], acc => [String.mk acc.reverse]
  | c :: rest, acc =>
    if c = '.' then String.mk acc.reverse :: splitDotAux rest []
    else splitDotAux rest (c :: acc)

/-- The JS `s.split(".")`: segments between dots, with empty segments
kept (so the empty string yields one empty segment). -/
def splitDot (s : String) : List String :=
  splitDotAux s.data []

/-- Normalization performed at the top of getFieldData: a string path is
split on dots and remembered as fieldPathString; an array path is used
as is; an absent path stays absent. -/
def FieldPath.norm : FieldPath → Option (List String)
  | .str s => some (splitDot s)
  | .arr ks => some ks
  | .undef => none

/-- The fieldPathString computed during normalization. -/
def FieldPath.normString : FieldPath → Option String
  | .str s => some s
  | _ => none

/-- Lookup of a value tree at an optional normalized path, as the source
does with `fieldPath ? _.get(tree, fieldPath) : tree`. -/
def resolveAt (tree : JVal) : Option (List String) → JVal
  | some ks => lodashGet tree ks
  | none => tree

/-- The invariant message raised when the schema has no entry at the
path. -/
def missingFieldMsg (ps : Option String) : String :=
  "render(" ++ ps.getD "null" ++ ") failed because the field is not defined in the schema."

/-- Fields.getFieldData: normalizes the path, looks up the field schema
(throwing the invariant when it is falsy), the field error, the value
and the type-registry entry. The thrown invariant is modelled as the
error branch of Except. -/
def Fields.getFieldData (p : FieldsProps) (fp : FieldPath) : Except String FieldData :=
  let fieldPathString := fp.normString
  let fieldPath := fp.norm
  let fieldSchema := resolveAt p.schema fieldPath
  if fieldSchema.truthy then
    let fieldError := resolveAt p.error fieldPath
    let value := resolveAt p.value fieldPath
    let fieldType := jsAnd p.fieldTypes (p.fieldTypes.getKey (fieldSchema.getKey "type").toPropKey)
    .ok { fieldPath, fieldPathString, fieldSchema, fieldError, fieldType, value }
  else
    .error (missingFieldMsg fieldPathString)

/-- The base props object literal built by Fields.getPropsForFieldData
before the three spreads. Its keys are distinct by construction. -/
def basePropsList (fd : FieldData) : List (String × JVal) :=
  [("value", fd.value),
   ("onChange", JVal.fn "boundChangeField"),
   ("error", fd.fieldError),
   ("schema", fd.fieldSchema),
   ("required", lodashGet fd.fieldSchema ["rules", "required"])]

/-- Fields.getPropsForFieldData: the object literal with base props,
then spreads of this.props.fieldComponentProps, then
fieldSchema.fieldComponentProps, then fieldType && its
fieldComponentProps; a later spread overwrites earlier bindings. -/
def Fields.getPropsForFieldData (p : FieldsProps) (fd : FieldData) : JVal :=
  .obj (mergeRight
    (mergeRight
      (mergeRight (basePropsList fd)
        (spreadFields p.fieldComponentProps))
      (spreadFields (fd.fieldSchema.getKey "fieldComponentProps")))
    (spreadFields (jsAnd fd.fieldType (fd.fieldType.getKey "fieldComponentProps"))))

/-- The change event forwarded to the external onChange listener, in the
argument order of the source call. -/
structure ChangeEvent where
  newValue : JVal
  fieldPathString : Option String
  fieldValue : JVal
  fieldPath : Option (List String)
deriving DecidableEq, Repr

/-- Fields.changeField at the level of values (reference identity and
mutation are treated separately in the heap model below): the new tree
handed to the listener is an immutable-set of the field value at the
path when one is given, else the field value itself; the event carries
(newValue, fieldPathString, fieldValue, fieldPath). -/
def lodashSetPure (v : JVal) : List String → JVal → JVal
  | [], _ => v
  | [k], x =>
    (match v with
     | .obj fs => .obj (assocSet fs k x)
     | _ => v)
  | k :: k2 :: rest, x =>
    (match v with
     | .obj fs =>
       let child := v.getKey k
       let child2 := if child.isObj then child else .obj []
       .obj (assocSet fs k (lodashSetPure child2 (k2 :: rest) x))
     | _ => v)

/-- The value of Fields.changeField's `value` local: a set at the path
over (a copy of) the current tree, or the raw field value when the path
is absent. -/
def Fields.changeField (p : FieldsProps) (fieldPath : Option (List String))
    (fieldValue : JVal) (fieldPathString : Option String) : ChangeEvent :=
  let value :=
    match fieldPath with
    | some ks => lodashSetPure p.value ks fieldValue
    | none => fieldValue
  { newValue := value, fieldPathString, fieldValue, fieldPath }

/-- Fields.renderAllFields reduced to the order in which it renders
fields: the fields prop when truthy, else the lexicographically sorted
schema keys. -/
def Fields.renderAllFieldsOrder (p : FieldsProps) : List JVal :=
  let fieldNames := objKeys p.schema
  if p.fields.truthy then collElems p.fields
  else (lodashSortBy fieldNames).map JVal.str

/-! ### The Fields element created by renderFields -/

/-- The default fieldTypes baked into renderFields. -/
def defaultFieldTypes : JVal :=
  .obj [("string", .obj [("fieldComponent", .fn "TextInput")]),
        ("number", .obj [("fieldComponent", .fn "NumberInput")])]

/-- renderFields(schema, options, render): the props map of the Fields
element it creates — schema and render attributes first, then the spread
of the options object, which is the default fieldTypes overwritten by
the truthy entries of the caller's options (lodash pickBy). -/
def renderFieldsProps (schema : JVal) (options : List (String × JVal))
    (render : JVal) : List (String × JVal) :=
  let opts := mergeRight [("fieldTypes", defaultFieldTypes)]
    (options.filter fun kv => kv.2.truthy)
  mergeRight [("schema", schema), ("render", render)] opts

/-- Reading one prop out of a props map built with mergeRight (each key
is bound at most once there, as in a JS props object). -/
def propGet (m : List (String × JVal)) (k : String) : JVal :=
  (List.lookup k m).getD (.undef)

/-- The FieldsProps record seen by a Fields instance given its props
map; Fields.defaultProps substitutes an empty object when the value
prop is undefined. -/
def Fields.propsOf (m : List (String × JVal)) : FieldsProps :=
  { schema := propGet m "schema"
    value := if propGet m "value" = .undef then .obj [] else propGet m "value"
    error := propGet m "error"
    fieldTypes := propGet m "fieldTypes"
    fieldComponentProps := propGet m "fieldComponentProps"
    fields := propGet m "fields"
    onChange := propGet m "onChange" }

/-! ### The Form component (src/unnamed/part_000) -/

/-- The Form props read by the modelled operations. validate, submit and
afterSubmit are the external async collaborators; awaiting them is
modelled by calling total functions (Except models rejection). -/
structure FormProps where
  schema : JVal
  value : JVal
  fields : JVal
  showLabels : JVal
  fieldComponents : JVal
  render : JVal
deriving DecidableEq, Repr

/-- The external collaborators of one submit cycle. -/
structure SubmitEnv where
  schema : JVal
  validate : JVal → JVal → JVal
  submitFn : JVal → Except JVal JVal
  afterSubmit : Option (JVal → JVal → Except JVal JVal)

/-- Form component state. -/
structure FormState where
  values : JVal
  errors : JVal
deriving DecidableEq, Repr

/-- The initial Form state set in the constructor. -/
def Form.initialState : FormState :=
  { values := .obj [], errors := .null }

/-- Form.onChange(values, fieldName, value): whole-tree replacement of
state.values; the other arguments are ignored. -/
def Form.onChange (st : FormState) (values fieldName fieldValue : JVal) : FormState :=
  { st with values := values }

/-- Observable record of one submit cycle: the error state at the moment
the validator is invoked, the arguments the validator received, the
argument the submitter received (none when it was not called), every
afterSubmit invocation with its arguments, and the value that escaped
uncaught (none when the cycle completed normally). -/
structure SubmitTrace where
  errorsWhenValidating : JVal
  validatorArgs : JVal × JVal
  submitterArgs : Option JVal
  afterSubmitCalls : List (JVal × JVal)
  thrown : Option JVal

/-- Form.submit: reads state.values, clears errors, awaits the
validator; a non-empty result is stored as {fieldErrors} and the cycle
halts; otherwise the submitter is awaited, a rejection is stored
verbatim as the error state, and on success afterSubmit (when present)
is awaited, its rejection left uncaught. -/
def Form.submit (env : SubmitEnv) (st : FormState) : FormState × SubmitTrace :=
  let values := st.values
  let stCleared := { st with errors := JVal.null }
  let fieldErrors := env.validate env.schema values
  if !(lodashIsEmpty fieldErrors) then
    ({ stCleared with errors := .obj [("fieldErrors", fieldErrors)] },
     { errorsWhenValidating := stCleared.errors
       validatorArgs := (env.schema, values)
       submitterArgs := none
       afterSubmitCalls := []
       thrown := none })
  else
    match env.submitFn values with
    | .error errs =>
      ({ stCleared with errors := errs },
       { errorsWhenValidating := stCleared.errors
         validatorArgs := (env.schema, values)
         submitterArgs := some values
         afterSubmitCalls := []
         thrown := none })
    | .ok res =>
      match env.afterSubmit with
      | none =>
        (stCleared,
         { errorsWhenValidating := stCleared.errors
           validatorArgs := (env.schema, values)
           submitterArgs := some values
           afterSubmitCalls := []
           thrown := none })
      | some f =>
        (stCleared,
         { errorsWhenValidating := stCleared.errors
           validatorArgs := (env.schema, values)
           submitterArgs := some values
           afterSubmitCalls := [(values, res)]
           thrown := match f values res with
             | .ok _ => none
             | .error e => some e })

/-- The options object Form.render passes to renderFields. -/
def Form.renderOptions (p : FormProps) (st : FormState) : List (String × JVal) :=
  [("value", p.value),
   ("onChange", .fn "Form.onChange"),
   ("fields", p.fields),
   ("showLabels", p.showLabels),
   ("fieldComponents", p.fieldComponents),
   ("errors", jsAnd st.errors (st.errors.getKey "fieldErrors")),
   ("fieldsContext", .obj [("renderSubmit", .fn "Form.renderSubmit"),
                           ("submit", .fn "Form.submit")])]

/-- The FieldsProps of the Fields instance a Form renders. -/
def Form.fieldsProps (p : FormProps) (st : FormState) : FieldsProps :=
  Fields.propsOf (renderFieldsProps p.schema (Form.renderOptions p st) p.render)

/-! ### Heap model of Fields.changeField

Fields.changeField computes `_.set(Object.assign({}, this.props.value),
fieldPath, fieldValue)`. Object.assign makes only a shallow copy and
lodash `_.set` mutates nested objects in place, so reference identity
matters. The model below gives objects addresses in a heap so that the
sharing between the copy and the original tree is explicit. -/

/-- A heap value: a primitive (any non-object JVal) or a reference to an
object in the heap. -/
inductive HVal where
  | prim (v : JVal)
  | ref (a : Nat)
deriving DecidableEq, Repr

/-- A heap of objects: addresses mapped to field lists, plus the next
fresh address. -/
structure Heap where
  objs : List (Nat × List (String × HVal))
  next : Nat
deriving DecidableEq, Repr

/-- The field list of the object at an address. -/
def Heap.getObj (h : Heap) (a : Nat) : List (String × HVal) :=
  (List.lookup a h.objs).getD []

/-- One field of the object at an address. -/
def Heap.getField (h : Heap) (a : Nat) (k : String) : HVal :=
  (List.lookup k (h.getObj a)).getD (.prim .undef)

/-- Replace the object stored at an address (in-place mutation of the
heap cell). -/
def Heap.setObj (h : Heap) (a : Nat) (o : List (String × HVal)) : Heap :=
  { h with objs := assocSet h.objs a o }

/-- Mutate one field of the object at an address. -/
def Heap.setField (h : Heap) (a : Nat) (k : String) (v : HVal) : Heap :=
  h.setObj a (assocSet (h.getObj a) k v)

/-- Allocate a fresh object. -/
def Heap.alloc (h : Heap) (o : List (String × HVal)) : Heap × Nat :=
  ({ objs := assocSet h.objs h.next o, next := h.next + 1 }, h.next)

/-- Lodash `_.set(obj, path, v)` on the heap: descends through existing
object references, replacing a non-object intermediate with a fresh
empty object, and finally mutates the last key in place. -/
def lodashSetMut (h : Heap) (a : Nat) : List String → HVal → Heap
  | [], _ => h
  | [k], v => h.setField a k v
  | k :: k2 :: rest, v =>
    match h.getField a k with
    | .ref b => lodashSetMut h b (k2 :: rest) v
    | _ =>
      let alloc := h.alloc []
      let h2 := alloc.1.setField a k (.ref alloc.2)
      lodashSetMut h2 alloc.2 (k2 :: rest) v

/-- Fields.changeField on the heap: Object.assign makes a shallow copy
of the root (nested references are shared), then `_.set` mutates along
the path. Returns the heap after the call and the address of the new
tree. -/
def Fields.changeFieldHeap (h : Heap) (root : Nat) (path : List String)
    (v : HVal) : Heap × Nat :=
  let copy := h.alloc (h.getObj root)
  (lodashSetMut copy.1 copy.2 path v, copy.2)

/-- Read a heap tree at a path (observing the heap after any
mutations). -/
def Heap.readPath (h : Heap) (a : Nat) : List String → HVal
  | [] => .ref a
  | [k] => h.getField a k
  | k :: k2 :: rest =>
    match h.getField a k with
    | .ref b => h.readPath b (k2 :: rest)
    | _ => .prim (.undef)

/-! ### Helper lemmas -/

theorem assocSet_lookup {α β : Type} [BEq α] [LawfulBEq α]
    (l : List (α × β)) (k k' : α) (v : β) :
    List.lookup k' (assocSet l k v) =
      if k' == k then some v else List.lookup k' l := by
  induction l with
  | nil =>
    simp only [assocSet, List.lookup]
    cases h : k' == k <;> simp [h]
  | cons hd tl ih =>
    obtain ⟨k1, v1⟩ := hd
    simp only [assocSet]
    cases h1 : k1 == k
    · simp only [Bool.false_eq_true, if_false, List.lookup]
      cases h2 : k' == k1
      · simp only [ih]
      · have hk : k' = k1 := eq_of_beq h2
        subst hk
        simp [h1]
    · have hk : k1 = k := eq_of_beq h1
      subst hk
      simp only [if_true, List.lookup]
      cases h2 : k' == k1 <;> simp [h2]

theorem lookup_append {α β : Type} [BEq α]
    (l1 l2 : List (α × β)) (k : α) :
    List.lookup k (l1 ++ l2) =
      firstSome (List.lookup k l1) (List.lookup k l2) := by
  induction l1 with
  | nil => simp [List.lookup, firstSome]
  | cons hd tl ih =>
    obtain ⟨k1, v1⟩ := hd
    simp only [List.cons_append, List.lookup]
    cases h : k == k1
    · simpa using ih
    · simp [firstSome]

theorem firstSome_assoc {α : Type} (a b c : Option α) :
    firstSome (firstSome a b) c = firstSome a (firstSome b c) := by
  cases a <;> cases b <;> simp [firstSome]

theorem mergeRight_lookup (b e : List (String × JVal)) (k : String) :
    List.lookup k (mergeRight b e) =
      firstSome (List.lookup k e.reverse) (List.lookup k b) := by
  induction e generalizing b with
  | nil => simp [mergeRight, List.lookup, firstSome]
  | cons hd tl ih =>
    obtain ⟨k1, v1⟩ := hd
    show List.lookup k (mergeRight (assocSet b k1 v1) tl) = _
    rw [ih, List.reverse_cons, lookup_append, firstSome_assoc]
    congr 1
    rw [assocSet_lookup]
    simp only [List.lookup]
    cases h : k == k1 <;> simp [h, firstSome]

theorem foldl_getKey_undef (ks : List String) :
    ks.foldl JVal.getKey .undef = .undef := by
  induction ks with
  | nil => rfl
  | cons k tl ih => simpa [JVal.getKey] using ih

theorem lodashGet_undef (ks : List String) : lodashGet .undef ks = .undef := by
  cases ks with
  | nil => rfl
  | cons k tl => simpa [lodashGet] using foldl_getKey_undef (k :: tl)

theorem resolveAt_undef (po : Option (List String)) :
    resolveAt .undef po = .undef := by
  cases po with
  | none => rfl
  | some ks => simpa [resolveAt] using lodashGet_undef ks

theorem lookup_none_iff {α β : Type} [BEq α] [LawfulBEq α]
    (l : List (α × β)) (k : α) :
    List.lookup k l = none ↔ k ∉ l.map (·.1) := by
  induction l with
  | nil => simp [List.lookup]
  | cons hd tl ih =>
    obtain ⟨k1, v1⟩ := hd
    simp only [List.lookup, List.map_cons, List.mem_cons]
    cases h : k == k1
    · have : ¬ k = k1 := by
        intro hc; subst hc; simp at h
      simp [ih, this]
    · have : k = k1 := eq_of_beq h
      simp [this]

theorem firstSome_none_right {α : Type} (a : Option α) :
    firstSome a none = a := by
  cases a <;> rfl

theorem lookup_reverse_nodup {α β : Type} [BEq α] [LawfulBEq α]
    (l : List (α × β)) (k : α) (h : (l.map (·.1)).Nodup) :
    List.lookup k l.reverse = List.lookup k l := by
  induction l with
  | nil => rfl
  | cons hd tl ih =>
    obtain ⟨k1, v1⟩ := hd
    simp only [List.map_cons, List.nodup_cons] at h
    rw [List.reverse_cons, lookup_append]
    simp only [List.lookup]
    cases hk : k == k1
    · rw [ih h.2, firstSome_none_right]
    · have hkk : k = k1 := eq_of_beq hk
      subst hkk
      have : List.lookup k tl = none := (lookup_none_iff tl k).mpr h.1
      rw [(lookup_none_iff tl.reverse k).mpr (by simpa using h.1)]
      simp [firstSome]

theorem lookup_filter_nodup (l : List (String × JVal)) (k : String)
    (pr : String × JVal → Bool) (h : (l.map (·.1)).Nodup) :
    List.lookup k (l.filter pr) =
      (match List.lookup k l with
       | some v => if pr (k, v) then some v else none
       | none => none) := by
  induction l with
  | nil => simp [List.lookup]
  | cons hd tl ih =>
    obtain ⟨k1, v1⟩ := hd
    simp only [List.map_cons, List.nodup_cons] at h
    by_cases hpr : pr (k1, v1) = true
    · rw [List.filter_cons_of_pos hpr]
      simp only [List.lookup]
      cases hk : k == k1
      · exact ih h.2
      · have : k = k1 := eq_of_beq hk
        subst this
        simp [hpr]
    · rw [List.filter_cons_of_neg (by simpa using hpr)]
      simp only [List.lookup]
      cases hk : k == k1
      · exact ih h.2
      · have : k = k1 := eq_of_beq hk
        subst this
        have : List.lookup k (tl.filter pr) = none := by
          rw [lookup_none_iff]
          intro hc
          exact h.1 (by
            have := List.filter_sublist (l := tl) (p := pr)
            exact (this.map (·.1)).mem hc)
        simp [this, hpr]

theorem assocSet_mem_keys {α β : Type} [BEq α] [LawfulBEq α]
    (l : List (α × β)) (k : α) (v : β) (x : α)
    (hx : x ∈ (assocSet l k v).map (·.1)) :
    x = k ∨ x ∈ l.map (·.1) := by
  induction l with
  | nil => simpa [assocSet] using hx
  | cons hd tl ih =>
    obtain ⟨k1, v1⟩ := hd
    simp only [assocSet] at hx
    by_cases h : (k1 == k) = true
    · rw [if_pos h] at hx
      simp only [List.map_cons, List.mem_cons] at hx
      rcases hx with hx | hx
      · exact Or.inl hx
      · exact Or.inr (by simp [hx])
    · rw [if_neg h] at hx
      simp only [List.map_cons, List.mem_cons] at hx
      rcases hx with hx | hx
      · exact Or.inr (by simp [hx])
      · rcases ih hx with h2 | h2
        · exact Or.inl h2
        · exact Or.inr (by simp [h2])

theorem mergeRight_mem_keys (b e : List (String × JVal)) (x : String)
    (hx : x ∈ (mergeRight b e).map (·.1)) :
    x ∈ b.map (·.1) ∨ x ∈ e.map (·.1) := by
  induction e generalizing b with
  | nil => exact Or.inl hx
  | cons hd tl ih =>
    obtain ⟨k1, v1⟩ := hd
    have step : x ∈ (mergeRight (assocSet b k1 v1) tl).map (·.1) := hx
    rcases ih (assocSet b k1 v1) step with h | h
    · rcases assocSet_mem_keys b k1 v1 x h with h2 | h2
      · exact Or.inr (by simp [h2])
      · exact Or.inl h2
    · exact Or.inr (by simp [h])

theorem assocSet_keys_nodup {α β : Type} [BEq α] [LawfulBEq α]
    (l : List (α × β)) (k : α) (v : β) (h : (l.map (·.1)).Nodup) :
    ((assocSet l k v).map (·.1)).Nodup := by
  induction l with
  | nil => simp [assocSet]
  | cons hd tl ih =>
    obtain ⟨k1, v1⟩ := hd
    simp only [List.map_cons, List.nodup_cons] at h
    simp only [assocSet]
    by_cases hk : (k1 == k) = true
    · have hek : k1 = k := eq_of_beq hk
      subst hek
      rw [if_pos hk]
      simp only [List.map_cons, List.nodup_cons]
      exact ⟨h.1, h.2⟩
    · rw [if_neg hk]
      simp only [List.map_cons, List.nodup_cons]
      refine ⟨?_, ih h.2⟩
      intro hc
      rcases assocSet_mem_keys tl k v k1 hc with h2 | h2
      · exact hk (by simp [h2])
      · exact h.1 h2

theorem mergeRight_keys_nodup (b e : List (String × JVal))
    (h : (b.map (·.1)).Nodup) : ((mergeRight b e).map (·.1)).Nodup := by
  induction e generalizing b with
  | nil => exact h
  | cons hd tl ih => exact ih (assocSet b hd.1 hd.2) (assocSet_keys_nodup b hd.1 hd.2 h)

/-! ### Characterization of the props merge and of the Form props map -/

theorem getProps_precedence (p : FieldsProps) (fd : FieldData) (k : String) :
    (Fields.getPropsForFieldData p fd).getKey k =
      (firstSome
        (List.lookup k (spreadFields
          (jsAnd fd.fieldType (fd.fieldType.getKey "fieldComponentProps"))).reverse)
        (firstSome
          (List.lookup k (spreadFields
            (fd.fieldSchema.getKey "fieldComponentProps")).reverse)
          (firstSome
            (List.lookup k (spreadFields p.fieldComponentProps).reverse)
            (List.lookup k (basePropsList fd))))).getD .undef := by
  show (List.lookup k (mergeRight (mergeRight (mergeRight (basePropsList fd)
      (spreadFields p.fieldComponentProps))
      (spreadFields (fd.fieldSchema.getKey "fieldComponentProps")))
      (spreadFields (jsAnd fd.fieldType
        (fd.fieldType.getKey "fieldComponentProps"))))).getD .undef = _
  rw [mergeRight_lookup, mergeRight_lookup, mergeRight_lookup]

theorem formPropsMap_lookup (p : FormProps) (st : FormState) (k : String) :
    List.lookup k (renderFieldsProps p.schema (Form.renderOptions p st) p.render) =
      firstSome
        (match List.lookup k (Form.renderOptions p st) with
         | some v => if v.truthy then some v else none
         | none => none)
        (firstSome
          (List.lookup k [("fieldTypes", defaultFieldTypes)])
          (List.lookup k [("schema", p.schema), ("render", p.render)])) := by
  have hro : ((Form.renderOptions p st).map (·.1)).Nodup := by
    simp only [Form.renderOptions, List.map_cons, List.map_nil]
    decide
  have hflt : (((Form.renderOptions p st).filter
      (fun kv => kv.2.truthy)).map (·.1)).Nodup :=
    hro.sublist ((List.filter_sublist _).map _)
  have hmerged : ((mergeRight [("fieldTypes", defaultFieldTypes)]
      ((Form.renderOptions p st).filter (fun kv => kv.2.truthy))).map (·.1)).Nodup :=
    mergeRight_keys_nodup _ _ (by decide)
  show List.lookup k (mergeRight [("schema", p.schema), ("render", p.render)]
      (mergeRight [("fieldTypes", defaultFieldTypes)]
        ((Form.renderOptions p st).filter (fun kv => kv.2.truthy)))) = _
  rw [mergeRight_lookup, lookup_reverse_nodup _ _ hmerged, mergeRight_lookup,
    lookup_reverse_nodup _ _ hflt, lookup_filter_nodup _ _ _ hro, firstSome_assoc]

theorem formProps_error (p : FormProps) (st : FormState) :
    (Form.fieldsProps p st).error = .undef := by
  show propGet (renderFieldsProps p.schema (Form.renderOptions p st) p.render) "error"
      = .undef
  rw [propGet, formPropsMap_lookup]
  have h : List.lookup "error" (Form.renderOptions p st) = none := by
    simp [Form.renderOptions, List.lookup]
  rw [h]
  simp [List.lookup, firstSome]

theorem formProps_value (p : FormProps) (st : FormState) :
    (Form.fieldsProps p st).value = (if p.value.truthy then p.value else .obj []) := by
  have hl : List.lookup "value" (Form.renderOptions p st) = some p.value := by
    simp [Form.renderOptions, List.lookup]
  show (if propGet (renderFieldsProps p.schema (Form.renderOptions p st) p.render)
        "value" = .undef then .obj []
      else propGet (renderFieldsProps p.schema (Form.renderOptions p st) p.render)
        "value") = _
  rw [propGet, formPropsMap_lookup, hl]
  by_cases h : p.value.truthy
  · have hne : p.value ≠ .undef := by
      intro hc
      rw [hc] at h
      exact absurd h (by decide)
    simp [h, firstSome, hne]
  · have hb : p.value.truthy = false := by simpa using h
    simp [hb, List.lookup, firstSome]


/-! ### Concrete fixtures used by the witnesses -/

/-- A small schema with a leaf field and a nested branch. -/
def schemaFix : JVal :=
  .obj [("name", .obj [("type", .str "string")]),
        ("address", .obj [("city", .obj [("type", .str "string")])])]

/-- Fields props over schemaFix with a value present for name and no
entry anywhere in the error tree. -/
def propsFix : FieldsProps :=
  { schema := schemaFix
    value := .obj [("name", .str "bob")]
    error := .obj []
    fieldTypes := defaultFieldTypes
    fieldComponentProps := .undef
    fields := .undef
    onChange := .fn "onChangeListener" }

/-! ### C1 -/

/-- C1: when the direct nested lookup at the normalized path yields a
Field Definition (an object, the only definition shape the schema
propType admits), Fields.getFieldData returns exactly that definition
together with the value and the field error looked up at the same path
(an absent entry resolving to undefined, still a normal return); when
nothing exists at the path, it throws the missing-field invariant
instead of returning normally. -/
theorem C1_getFieldData_resolution (p : FieldsProps) (fp : FieldPath) :
    ((resolveAt p.schema fp.norm).isObj = true →
      Fields.getFieldData p fp = .ok
        { fieldPath := fp.norm
          fieldPathString := fp.normString
          fieldSchema := resolveAt p.schema fp.norm
          fieldError := resolveAt p.error fp.norm
          fieldType := jsAnd p.fieldTypes
            (p.fieldTypes.getKey
              ((resolveAt p.schema fp.norm).getKey "type").toPropKey)
          value := resolveAt p.value fp.norm }) ∧
    (resolveAt p.schema fp.norm = .undef →
      Fields.getFieldData p fp = .error (missingFieldMsg fp.normString)) := by
  constructor
  · intro hobj
    have htr : (resolveAt p.schema fp.norm).truthy = true := by
      cases hres : resolveAt p.schema fp.norm <;>
        simp_all [JVal.isObj, JVal.truthy]
    simp [Fields.getFieldData, htr]
  · intro hu
    simp [Fields.getFieldData, hu, JVal.truthy]

/-- Witness for C1 at concrete inputs: the definition at name resolves
with its value and an undefined error (the error tree has no entry), and
a missing path throws. -/
theorem C1_getFieldData_resolution_witness :
    Fields.getFieldData propsFix (.str "name") = .ok
      { fieldPath := some ["name"]
        fieldPathString := some "name"
        fieldSchema := .obj [("type", .str "string")]
        fieldError := .undef
        fieldType := .obj [("fieldComponent", .fn "TextInput")]
        value := .str "bob" } ∧
    Fields.getFieldData propsFix (.str "missing") =
      .error (missingFieldMsg (some "missing")) := by
  have h1 := C1_getFieldData_resolution propsFix (.str "name")
  have h2 := C1_getFieldData_resolution propsFix (.str "missing")
  exact ⟨(h1.1 (by decide)).trans rfl, (h2.2 (by decide)).trans rfl⟩

/-! ### C7 -/

/-- C7: a dotted-string path and its split key sequence normalize to the
same internal path and resolve identically: the FieldData produced for
the string path agrees with the one produced for the array path on the
definition, value, error, type entry and normalized path, and the two
calls fail together. -/
theorem C7_dotted_equals_array (p : FieldsProps) (s : String) :
    (∀ fa, Fields.getFieldData p (.str s) = .ok fa →
      ∃ fb, Fields.getFieldData p (.arr (splitDot s)) = .ok fb ∧
        fa.fieldSchema = fb.fieldSchema ∧ fa.value = fb.value ∧
        fa.fieldError = fb.fieldError ∧ fa.fieldType = fb.fieldType ∧
        fa.fieldPath = fb.fieldPath) ∧
    (∀ e, Fields.getFieldData p (.str s) = .error e →
      ∃ e2, Fields.getFieldData p (.arr (splitDot s)) = .error e2) := by
  by_cases h : (resolveAt p.schema (some (splitDot s))).truthy = true
  · have ha : Fields.getFieldData p (.str s) = .ok
        { fieldPath := some (splitDot s)
          fieldPathString := some s
          fieldSchema := resolveAt p.schema (some (splitDot s))
          fieldError := resolveAt p.error (some (splitDot s))
          fieldType := jsAnd p.fieldTypes (p.fieldTypes.getKey
            ((resolveAt p.schema (some (splitDot s))).getKey "type").toPropKey)
          value := resolveAt p.value (some (splitDot s)) } := by
      simp [Fields.getFieldData, FieldPath.norm, FieldPath.normString, h]
    have hb : Fields.getFieldData p (.arr (splitDot s)) = .ok
        { fieldPath := some (splitDot s)
          fieldPathString := none
          fieldSchema := resolveAt p.schema (some (splitDot s))
          fieldError := resolveAt p.error (some (splitDot s))
          fieldType := jsAnd p.fieldTypes (p.fieldTypes.getKey
            ((resolveAt p.schema (some (splitDot s))).getKey "type").toPropKey)
          value := resolveAt p.value (some (splitDot s)) } := by
      simp [Fields.getFieldData, FieldPath.norm, FieldPath.normString, h]
    refine ⟨?_, ?_⟩
    · intro fa hfa
      rw [ha] at hfa
      injection hfa with hfa
      refine ⟨_, hb, ?_⟩
      rw [← hfa]
      exact ⟨rfl, rfl, rfl, rfl, rfl⟩
    · intro e he
      rw [ha] at he
      exact absurd he (by simp)
  · have hf : (resolveAt p.schema (some (splitDot s))).truthy = false := by
      simpa using h
    have ha : Fields.getFieldData p (.str s) =
        .error (missingFieldMsg (some s)) := by
      simp [Fields.getFieldData, FieldPath.norm, FieldPath.normString, hf]
    have hb : Fields.getFieldData p (.arr (splitDot s)) =
        .error (missingFieldMsg none) := by
      simp [Fields.getFieldData, FieldPath.norm, FieldPath.normString, hf]
    refine ⟨?_, ?_⟩
    · intro fa hfa
      rw [ha] at hfa
      exact absurd hfa (by simp)
    · intro e he
      exact ⟨_, hb⟩

/-- Witness for C7: the nested path address.city resolved as a dotted
string and as the split array agree on definition, value and error. -/
theorem C7_dotted_equals_array_witness :
    ∃ fb, Fields.getFieldData propsFix (.arr (splitDot "address.city")) = .ok fb ∧
      fb.fieldSchema = .obj [("type", .str "string")] ∧
      fb.value = .undef ∧ fb.fieldError = .undef := by
  obtain ⟨fb, hfb, hs, hv, he, _, _⟩ :=
    (C7_dotted_equals_array propsFix "address.city").1
      { fieldPath := some ["address", "city"]
        fieldPathString := some "address.city"
        fieldSchema := .obj [("type", .str "string")]
        fieldError := .undef
        fieldType := .obj [("fieldComponent", .fn "TextInput")]
        value := .undef }
      rfl
  exact ⟨fb, hfb, hs.symm, hv.symm, he.symm⟩

/-! ### C2 -/

/-- C2: on every submit trigger the error state is cleared before the
validator runs, the validator receives (schema, current values), the
submitter is invoked exactly when the returned field-error mapping is
empty, and a non-empty mapping is stored as exactly {fieldErrors} with
the cycle halting before the submitter. -/
theorem C2_submit_validation_gate (env : SubmitEnv) (st : FormState) :
    (Form.submit env st).2.errorsWhenValidating = .null ∧
    (Form.submit env st).2.validatorArgs = (env.schema, st.values) ∧
    ((Form.submit env st).2.submitterArgs.isSome = true ↔
      lodashIsEmpty (env.validate env.schema st.values) = true) ∧
    (lodashIsEmpty (env.validate env.schema st.values) = false →
      (Form.submit env st).1.errors =
        .obj [("fieldErrors", env.validate env.schema st.values)] ∧
      (Form.submit env st).2.submitterArgs = none ∧
      (Form.submit env st).2.afterSubmitCalls = []) := by
  by_cases h : lodashIsEmpty (env.validate env.schema st.values) = true
  · cases hsub : env.submitFn st.values <;> cases haft : env.afterSubmit <;>
      simp [Form.submit, h, hsub, haft]
  · have hf : lodashIsEmpty (env.validate env.schema st.values) = false := by
      simpa using h
    simp [Form.submit, hf]

/-- Concrete submit environment whose validator reports a required name
field; the submitter and afterSubmit would succeed if reached. -/
def envRejectingValidator : SubmitEnv :=
  { schema := schemaFix
    validate := fun _ _ => .obj [("name", .str "required")]
    submitFn := fun _ => .ok (.str "submitted")
    afterSubmit := some (fun _ _ => .ok .undef) }

/-- Concrete starting state holding values and a stale error. -/
def stFix : FormState :=
  { values := .obj [("name", .str "bob")], errors := .obj [("old", .str "e")] }

/-- Witness for C2: with a validator returning {name: required} the
cycle halts before the submitter and stores exactly that mapping. -/
theorem C2_submit_validation_gate_witness :
    (Form.submit envRejectingValidator stFix).1.errors =
      .obj [("fieldErrors", .obj [("name", .str "required")])] ∧
    (Form.submit envRejectingValidator stFix).2.submitterArgs = none ∧
    (Form.submit envRejectingValidator stFix).2.errorsWhenValidating = .null := by
  have h := C2_submit_validation_gate envRejectingValidator stFix
  obtain ⟨he, -, -, hh⟩ := h
  obtain ⟨h1, h2, -⟩ := hh (by decide)
  exact ⟨h1.trans (by decide), h2, he⟩

/-! ### C3 -/

/-- C3: once validation passes, a submitter rejection is stored verbatim
as the error state and afterSubmit is never invoked; a submitter success
invokes a configured afterSubmit exactly once with (values, result)
while the error state stays cleared; and an afterSubmit rejection is not
caught (it escapes the submit call). -/
theorem C3_submit_outcome (env : SubmitEnv) (st : FormState)
    (hv : lodashIsEmpty (env.validate env.schema st.values) = true) :
    (∀ e, env.submitFn st.values = .error e →
      (Form.submit env st).1.errors = e ∧
      (Form.submit env st).2.afterSubmitCalls = [] ∧
      (Form.submit env st).2.thrown = none) ∧
    (∀ r, env.submitFn st.values = .ok r →
      (env.afterSubmit = none →
        (Form.submit env st).2.afterSubmitCalls = [] ∧
        (Form.submit env st).1.errors = .null) ∧
      (∀ f, env.afterSubmit = some f →
        (Form.submit env st).2.afterSubmitCalls = [(st.values, r)] ∧
        (Form.submit env st).1.errors = .null ∧
        (∀ e2, f st.values r = .error e2 →
          (Form.submit env st).2.thrown = some e2))) := by
  refine ⟨?_, ?_⟩
  · intro e he
    simp [Form.submit, hv, he]
  · intro r hr
    refine ⟨?_, ?_⟩
    · intro hn
      simp [Form.submit, hv, hr, hn]
    · intro f hf
      refine ⟨?_, ?_, ?_⟩
      · simp [Form.submit, hv, hr, hf]
      · simp [Form.submit, hv, hr, hf]
      · intro e2 he2
        simp [Form.submit, hv, hr, hf, he2]

/-- Concrete environment whose validator passes and whose submitter
rejects with a pre-shaped summary-error payload. -/
def envRejectingSubmitter : SubmitEnv :=
  { schema := schemaFix
    validate := fun _ _ => .obj []
    submitFn := fun _ => .error (.obj [("summaryError", .str "failed")])
    afterSubmit := some (fun _ _ => .ok .undef) }

/-- Concrete environment whose validator passes, whose submitter
resolves, and whose afterSubmit resolves. -/
def envResolvingSubmitter : SubmitEnv :=
  { schema := schemaFix
    validate := fun _ _ => .obj []
    submitFn := fun _ => .ok (.str "submitted")
    afterSubmit := some (fun _ _ => .ok .undef) }

/-- Witness for C3: the rejected payload is stored verbatim with no
afterSubmit call, and on success afterSubmit runs once with
(values, result) while errors stay cleared. -/
theorem C3_submit_outcome_witness :
    ((Form.submit envRejectingSubmitter stFix).1.errors =
        .obj [("summaryError", .str "failed")] ∧
      (Form.submit envRejectingSubmitter stFix).2.afterSubmitCalls = []) ∧
    ((Form.submit envResolvingSubmitter stFix).2.afterSubmitCalls =
        [(.obj [("name", .str "bob")], .str "submitted")] ∧
      (Form.submit envResolvingSubmitter stFix).1.errors = .null) := by
  have h1 := (C3_submit_outcome envRejectingSubmitter stFix (by decide)).1
    (.obj [("summaryError", .str "failed")]) rfl
  have h2 := ((C3_submit_outcome envResolvingSubmitter stFix (by decide)).2
    (.str "submitted") rfl).2 (fun _ _ => .ok .undef) rfl
  exact ⟨⟨h1.1, h1.2.1⟩, ⟨h2.1.trans (by decide), h2.2.1⟩⟩

/-! ### C5 -/

/-- C5: the props object built for a resolved field gives, on every key,
the binding of the type-registry component props when present, else the
field-level component props, else the caller's global component props,
else the base props (value, onChange, error, schema, required) — i.e.
precedence increases from base to global to field-level to
type-registry. -/
theorem C5_props_precedence (p : FieldsProps) (fd : FieldData) (k : String) :
    (Fields.getPropsForFieldData p fd).getKey k =
      (firstSome
        (List.lookup k (spreadFields
          (jsAnd fd.fieldType (fd.fieldType.getKey "fieldComponentProps"))).reverse)
        (firstSome
          (List.lookup k (spreadFields
            (fd.fieldSchema.getKey "fieldComponentProps")).reverse)
          (firstSome
            (List.lookup k (spreadFields p.fieldComponentProps).reverse)
            (List.lookup k (basePropsList fd))))).getD .undef :=
  getProps_precedence p fd k

/-! ### C6 -/

/-- FieldData with component props overlapping on the key value at every
level: the base computes "baseValue", the global props say
"globalLevel", the field level says "fieldLevel" and the type registry
says "typeRegistry". -/
def fdOverlap : FieldData :=
  { fieldPath := some ["name"]
    fieldPathString := some "name"
    fieldSchema := .obj [("fieldComponentProps", .obj [("value", .str "fieldLevel")])]
    fieldError := .undef
    fieldType := .obj [("fieldComponentProps", .obj [("value", .str "typeRegistry")])]
    value := .str "baseValue" }

/-- Fields props whose global fieldComponentProps also bind the key
value. -/
def propsOverlap : FieldsProps :=
  { propsFix with fieldComponentProps := .obj [("value", .str "globalLevel")] }

/-- Counterexample to C6: on the overlapping key value the merged props
hold the type-registry binding, not the base computed one that C6 says
should win. -/
theorem C6_counterexample :
    (Fields.getPropsForFieldData propsOverlap fdOverlap).getKey "value" =
      .str "typeRegistry" ∧
    JVal.str "typeRegistry" ≠ JVal.str "baseValue" := by decide

/-- C6 amended: the precedence runs the other way around — on any key
present at multiple levels the type-registry binding wins over the
field-level one, which wins over the global one, which wins over the
base computed props; the base value is used only when no
fieldComponentProps level binds the key. -/
theorem C6_amended_props_precedence (p : FieldsProps) (fd : FieldData) (k : String) :
    (∀ v, List.lookup k (spreadFields
        (jsAnd fd.fieldType (fd.fieldType.getKey "fieldComponentProps"))).reverse
          = some v →
      (Fields.getPropsForFieldData p fd).getKey k = v) ∧
    (List.lookup k (spreadFields
        (jsAnd fd.fieldType (fd.fieldType.getKey "fieldComponentProps"))).reverse
          = none →
      (∀ v, List.lookup k (spreadFields
          (fd.fieldSchema.getKey "fieldComponentProps")).reverse = some v →
        (Fields.getPropsForFieldData p fd).getKey k = v) ∧
      (List.lookup k (spreadFields
          (fd.fieldSchema.getKey "fieldComponentProps")).reverse = none →
        (∀ v, List.lookup k (spreadFields p.fieldComponentProps).reverse = some v →
          (Fields.getPropsForFieldData p fd).getKey k = v) ∧
        (List.lookup k (spreadFields p.fieldComponentProps).reverse = none →
          (Fields.getPropsForFieldData p fd).getKey k =
            (List.lookup k (basePropsList fd)).getD .undef))) := by
  rw [getProps_precedence]
  refine ⟨?_, ?_⟩
  · intro v hv
    rw [hv]
    rfl
  · intro h1
    rw [h1]
    refine ⟨?_, ?_⟩
    · intro v hv
      rw [hv]
      rfl
    · intro h2
      rw [h2]
      refine ⟨?_, ?_⟩
      · intro v hv
        rw [hv]
        rfl
      · intro h3
        rw [h3]
        rfl

/-- Witness for the amended C6 at the overlapping fixture: the
type-registry binding is returned, and with the registry and field
levels absent the global binding is returned. -/
theorem C6_amended_props_precedence_witness :
    (Fields.getPropsForFieldData propsOverlap fdOverlap).getKey "value" =
      .str "typeRegistry" ∧
    (Fields.getPropsForFieldData propsOverlap
        { fdOverlap with fieldSchema := .obj [], fieldType := .undef }).getKey
      "value" = .str "globalLevel" := by
  refine ⟨(C6_amended_props_precedence propsOverlap fdOverlap "value").1
    (.str "typeRegistry") (by decide), ?_⟩
  have h := ((C6_amended_props_precedence propsOverlap
    { fdOverlap with fieldSchema := .obj [], fieldType := .undef } "value").2
    (by decide)).2 (by decide)
  exact h.1 (.str "globalLevel") (by decide)

/-! ### C8 -/

/-- C8: the whole-schema renderer orders fields by the supplied fields
list when that prop is set, and otherwise by the schema keys in
ascending lexicographic order (the sort is a sorted permutation of the
keys). -/
theorem C8_renderAllFields_order (p : FieldsProps) :
    (∀ xs, p.fields = .arr xs → Fields.renderAllFieldsOrder p = xs) ∧
    (p.fields.truthy = false →
      Fields.renderAllFieldsOrder p =
        (lodashSortBy (objKeys p.schema)).map JVal.str ∧
      List.Sorted (· ≤ ·) (lodashSortBy (objKeys p.schema)) ∧
      (lodashSortBy (objKeys p.schema)).Perm (objKeys p.schema)) := by
  constructor
  · intro xs hxs
    simp [Fields.renderAllFieldsOrder, hxs, JVal.truthy, collElems]
  · intro hf
    refine ⟨by simp [Fields.renderAllFieldsOrder, hf], ?_, ?_⟩
    · unfold lodashSortBy
      exact List.sorted_insertionSort _ _
    · unfold lodashSortBy
      exact List.perm_insertionSort _ _

/-- Fields props whose schema keys read z, a, m in insertion order and
whose fields prop is absent. -/
def propsZAM : FieldsProps :=
  { propsFix with schema := .obj [("z", .obj []), ("a", .obj []), ("m", .obj [])] }

/-- Witness for C8: schema keys z, a, m with no fields list render in
order a, m, z. -/
theorem C8_renderAllFields_order_witness :
    Fields.renderAllFieldsOrder propsZAM = [.str "a", .str "m", .str "z"] := by
  have h := (C8_renderAllFields_order propsZAM).2 (by decide)
  have h2 : objKeys propsZAM.schema = ["z", "a", "m"] := rfl
  have h3 : lodashSortBy ["z", "a", "m"] = ["a", "m", "z"] := by
    simp [lodashSortBy, List.insertionSort, List.orderedInsert]
    decide
  exact h.1.trans (by rw [h2, h3]; rfl)

/-! ### C9 -/

/-- C9: the Form forwards its stored field errors under the option key
errors while Fields reads the prop named error, so the error prop of a
Form-rendered Fields instance is undefined and every successfully
resolved field carries an undefined field-level error, whatever the
controller has stored. -/
theorem C9_stored_errors_never_reach_fields (p : FormProps) (st : FormState)
    (fp : FieldPath) :
    (Form.fieldsProps p st).error = .undef ∧
    (∀ fd, Fields.getFieldData (Form.fieldsProps p st) fp = .ok fd →
      fd.fieldError = .undef) := by
  refine ⟨formProps_error p st, ?_⟩
  intro fd hfd
  by_cases h : (resolveAt (Form.fieldsProps p st).schema fp.norm).truthy = true
  · have hok : Fields.getFieldData (Form.fieldsProps p st) fp = .ok
        { fieldPath := fp.norm
          fieldPathString := fp.normString
          fieldSchema := resolveAt (Form.fieldsProps p st).schema fp.norm
          fieldError := resolveAt (Form.fieldsProps p st).error fp.norm
          fieldType := jsAnd (Form.fieldsProps p st).fieldTypes
            ((Form.fieldsProps p st).fieldTypes.getKey
              ((resolveAt (Form.fieldsProps p st).schema fp.norm).getKey
                "type").toPropKey)
          value := resolveAt (Form.fieldsProps p st).value fp.norm } := by
      simp [Fields.getFieldData, h]
    rw [hok] at hfd
    injection hfd with hfd
    rw [← hfd]
    show resolveAt (Form.fieldsProps p st).error fp.norm = .undef
    rw [formProps_error p st]
    exact resolveAt_undef fp.norm
  · have herr : Fields.getFieldData (Form.fieldsProps p st) fp =
        .error (missingFieldMsg fp.normString) := by
      simp [Fields.getFieldData, (by simpa using h :
        (resolveAt (Form.fieldsProps p st).schema fp.norm).truthy = false)]
    rw [herr] at hfd
    exact absurd hfd (by simp)

/-- Form props over schemaFix as a Form.render call would assemble
them. -/
def formPropsFix : FormProps :=
  { schema := schemaFix
    value := .obj [("name", .str "bob")]
    fields := .undef
    showLabels := .undef
    fieldComponents := .undef
    render := .undef }

/-- Form state after a failed validation stored field errors for
name. -/
def stWithErrors : FormState :=
  { values := .obj []
    errors := .obj [("fieldErrors", .obj [("name", .str "bad")])] }

/-- Witness for C9: even with a stored field error for name, the field
resolves with an undefined error. -/
theorem C9_stored_errors_never_reach_fields_witness :
    (Form.fieldsProps formPropsFix stWithErrors).error = .undef ∧
    Fields.getFieldData (Form.fieldsProps formPropsFix stWithErrors)
        (.str "name") = .ok
      { fieldPath := some ["name"]
        fieldPathString := some "name"
        fieldSchema := .obj [("type", .str "string")]
        fieldError := .undef
        fieldType := .obj [("fieldComponent", .fn "TextInput")]
        value := .str "bob" } := by
  have h := C9_stored_errors_never_reach_fields formPropsFix stWithErrors (.str "name")
  exact ⟨h.1, rfl⟩

/-! ### C10 -/

theorem foldl_onChange (st : FormState) (evs : List (JVal × JVal × JVal)) :
    (evs.foldl (fun s e => Form.onChange s e.1 e.2.1 e.2.2) st) =
      { values := (evs.map (·.1)).getLastD st.values, errors := st.errors } := by
  induction evs generalizing st with
  | nil => rfl
  | cons e tl ih =>
    simp only [List.foldl_cons, List.map_cons, List.getLastD_cons]
    rw [ih]
    rfl

theorem submit_validatorArgs (env : SubmitEnv) (st : FormState) :
    (Form.submit env st).2.validatorArgs = (env.schema, st.values) := by
  by_cases h : lodashIsEmpty (env.validate env.schema st.values) = true
  · cases hsub : env.submitFn st.values <;> cases haft : env.afterSubmit <;>
      simp [Form.submit, h, hsub, haft]
  · simp [Form.submit, (by simpa using h :
      lodashIsEmpty (env.validate env.schema st.values) = false)]

/-- C10: the value tree a Form hands to Fields is its external value
prop, never its internal state, so field resolution is unaffected by any
sequence of onChange events; those events only replace state.values,
which the next submit reads. -/
theorem C10_render_value_ignores_onChange (p : FormProps) (st : FormState)
    (evs : List (JVal × JVal × JVal)) (env : SubmitEnv) :
    (Form.fieldsProps p
        (evs.foldl (fun s e => Form.onChange s e.1 e.2.1 e.2.2) st)).value =
      (Form.fieldsProps p st).value ∧
    (Form.fieldsProps p
        (evs.foldl (fun s e => Form.onChange s e.1 e.2.1 e.2.2) st)).value =
      (if p.value.truthy then p.value else .obj []) ∧
    (evs.foldl (fun s e => Form.onChange s e.1 e.2.1 e.2.2) st).values =
      (evs.map (·.1)).getLastD st.values ∧
    (Form.submit env
        (evs.foldl (fun s e => Form.onChange s e.1 e.2.1 e.2.2) st)).2.validatorArgs.2 =
      (evs.map (·.1)).getLastD st.values := by
  refine ⟨?_, ?_, ?_, ?_⟩
  · rw [formProps_value, formProps_value]
  · rw [formProps_value]
  · rw [foldl_onChange]
  · rw [submit_validatorArgs, foldl_onChange]

/-- Witness for C10: after two onChange events the Fields value prop is
still the external one while submit validates the last stored tree. -/
theorem C10_render_value_ignores_onChange_witness :
    (Form.fieldsProps formPropsFix
        ([((.obj [("name", .str "x")]), .str "name", .str "x"),
          ((.obj [("name", .str "y")]), .str "name", .str "y")].foldl
          (fun s e => Form.onChange s e.1 e.2.1 e.2.2) Form.initialState)).value =
      .obj [("name", .str "bob")] ∧
    (Form.submit envRejectingValidator
        ([((.obj [("name", .str "x")]), .str "name", .str "x"),
          ((.obj [("name", .str "y")]), .str "name", .str "y")].foldl
          (fun s e => Form.onChange s e.1 e.2.1 e.2.2)
          Form.initialState)).2.validatorArgs.2 =
      .obj [("name", .str "y")] := by
  have h := C10_render_value_ignores_onChange formPropsFix Form.initialState
    [((.obj [("name", .str "x")]), .str "name", .str "x"),
     ((.obj [("name", .str "y")]), .str "name", .str "y")] envRejectingValidator
  exact ⟨h.2.1.trans (by decide), h.2.2.2.trans (by decide)⟩

/-! ### C4 -/

/-- A value tree {name: n, address: {city: old}} laid out in the heap:
the root at address 0 holds a reference to the nested address object at
address 1. -/
def heapFix : Heap :=
  { objs := [(0, [("name", .prim (.str "n")), ("address", .ref 1)]),
             (1, [("city", .prim (.str "old"))])]
    next := 2 }

/-- C4 evaluated at the failing input: changing values.address.city via
changeField (a shallow Object.assign copy followed by the mutating
lodash set) produces a new root (address 2) that reads the new leaf, but
the previous tree (address 0) now also reads the new leaf — the nested
address object at address 1 was mutated in place and stays shared by
both roots — while the forwarded change event itself carries
(newValueTree, pathString, newValue, path) in that order. -/
theorem C4_changeField_mutates_previous_tree :
    Heap.readPath heapFix 0 ["address", "city"] = .prim (.str "old") ∧
    (Fields.changeFieldHeap heapFix 0 ["address", "city"]
      (.prim (.str "new"))).2 = 2 ∧
    Heap.readPath (Fields.changeFieldHeap heapFix 0 ["address", "city"]
      (.prim (.str "new"))).1 2 ["address", "city"] = .prim (.str "new") ∧
    Heap.readPath (Fields.changeFieldHeap heapFix 0 ["address", "city"]
      (.prim (.str "new"))).1 0 ["address", "city"] = .prim (.str "new") ∧
    Heap.getField (Fields.changeFieldHeap heapFix 0 ["address", "city"]
      (.prim (.str "new"))).1 0 "address" = .ref 1 ∧
    Heap.getField (Fields.changeFieldHeap heapFix 0 ["address", "city"]
      (.prim (.str "new"))).1 2 "address" = .ref 1 ∧
    Fields.changeField
        { propsFix with value := .obj [("name", .str "n"),
            ("address", .obj [("city", .str "old")])] }
        (some ["address", "city"]) (.str "new") (some "address.city") =
      { newValue := .obj [("name", .str "n"),
          ("address", .obj [("city", .str "new")])]
        fieldPathString := some "address.city"
        fieldValue := .str "new"
        fieldPath := some ["address", "city"] } := by decide
